import Mathlib

/-!
Verification of the OpenMicroStage Python API (host-side client for a
micro-positioning stage).  The matrix helpers are embedded from
`open_micro_stage/utils.py`.  The session controller, command encoder and
reply parser live in `open_micro_stage/api.py`, which is not shipped in the
repository (only its tests are); those parts are modelled from the
specification, as marked on each definition.

Scalars are modelled as `ℚ`; every numeric value exercised by the claims is
exactly representable.
-/

/-- Python runtime errors that the matrix helpers can raise. -/
inductive PyErr where
  | valueError (msg : String)
  | indexError
  deriving DecidableEq, Repr

/-- Python list indexing `l[i]` for a non-negative index: raises
`IndexError` when out of range. -/
def pyGet (l : List α) (i : Nat) : Except PyErr α :=
  match l.get? i with
  | some x => .ok x
  | none => .error .indexError

/-- Embedded from `utils.py` `generate_eye`: identity-pattern matrix. -/
def generate_eye (size : Nat) : List (List ℚ) :=
  (List.range size).map (fun i => (List.range size).map (fun j => if i = j then 1 else 0))

/-- Embedded from `utils.py` `matrix_dot_product`: matrix-vector product with
Python evaluation order (row loop, then component loop, every access
index-checked). -/
def matrix_dot_product (A : List (List ℚ)) (B : List ℚ) : Except PyErr (List ℚ) := do
  let a0 ← pyGet A 0
  if a0.length ≠ B.length then
    throw (.valueError "Number of columns in A must equal number of elements in B.")
  (List.range A.length).mapM (fun i =>
    (List.range B.length).foldlM (fun acc j => do
      let Ai ← pyGet A i
      let Aij ← pyGet Ai j
      let Bj ← pyGet B j
      pure (acc + Aij * Bj)) (0 : ℚ))

/-- Embedded from `utils.py` `matrix_multiply`: matrix product with Python
evaluation order. -/
def matrix_multiply (A B : List (List ℚ)) : Except PyErr (List (List ℚ)) := do
  let a0 ← pyGet A 0
  if a0.length ≠ B.length then
    throw (.valueError "Number of columns in A must equal number of rows in B.")
  let b0 ← pyGet B 0
  (List.range A.length).mapM (fun i =>
    (List.range b0.length).mapM (fun j =>
      (List.range B.length).foldlM (fun acc k => do
        let Ai ← pyGet A i
        let Aik ← pyGet Ai k
        let Bk ← pyGet B k
        let Bkj ← pyGet Bk j
        pure (acc + Aik * Bkj)) (0 : ℚ)))

/-- `A` is rectangular: every row has the length of the first row. -/
def Rect (A : List (List ℚ)) : Prop := ∀ r ∈ A, r.length = (A.headD []).length

instance : DecidablePred Rect := fun A => List.decidableBAll _ A

/-- The exchange produced a Python `ValueError`. -/
def isValueError : Except PyErr α → Prop
  | .error (.valueError _) => True
  | _ => False

/-! ## Wire protocol data model (modelled from the spec) -/

/-- Modelled from the spec: enumerated outcome of a single exchange. -/
inductive ReplyStatus where
  | ok
  | error
  | busy
  deriving DecidableEq, Repr

/-- Modelled from the spec: pairing of `ReplyStatus` and a raw text payload,
returned by every transport exchange. -/
abbrev CommandOutcome := ReplyStatus × String

/-- Modelled from the spec: host-side error taxonomy (§7). -/
inductive OMSError where
  | notConnected
  | invalidArgument
  | malformedReply
  deriving DecidableEq, Repr

/-! ## Numeric formatting (modelled from the spec) -/

/-- Decimal digits of `n`, most significant first, by fuelled division. -/
def natDigitsAux : Nat → Nat → List Char
  | 0, _ => []
  | fuel+1, n => if n = 0 then [] else natDigitsAux fuel (n / 10) ++ [Char.ofNat (48 + n % 10)]

/-- Decimal digit characters of a natural number. -/
def natDigits (n : Nat) : List Char := if n = 0 then ['0'] else natDigitsAux n n

/-- Modelled from the spec: fixed-point formatting with `d` decimal digits
(the `%.6f`-style formatting of `api.py`), as a character list.  The value is
scaled by `10^d` and rounded to the nearest integer. -/
def fmtFixed (d : Nat) (x : ℚ) : List Char :=
  let scaled : Int := Int.fdiv (2 * x.num * (10 : Int) ^ d + (x.den : Int)) (2 * (x.den : Int))
  let n := scaled.natAbs
  let ip := n / 10 ^ d
  let fp := n % 10 ^ d
  (if scaled < 0 then ['-'] else []) ++ natDigits ip ++ ['.'] ++
    (List.replicate (d - (natDigits fp).length) '0' ++ natDigits fp)

/-! ## Payload text parsing (modelled from the spec) -/

/-- Split a character list at every separator recognised by `p`;
empty chunks are kept (the semantics of Python `str.split(sep)`). -/
def splitP (p : Char → Bool) : List Char → List (List Char)
  | [] => [[]]
  | c :: cs =>
    if p c then [] :: splitP p cs
    else
      match splitP p cs with
      | [] => [[c]]
      | w :: ws => (c :: w) :: ws

/-- Whitespace-delimited words of a payload (Python `str.split()` with no
separator: empty chunks dropped). -/
def wordsOf (s : String) : List (List Char) :=
  (splitP (fun c => c.isWhitespace) s.data).filter (fun w => w ≠ [])

/-- Numeric value of a digit character. -/
def digitVal (c : Char) : Nat := c.toNat - 48

/-- Value of a list of decimal digit characters. -/
def natOfDigits (l : List Char) : Nat := l.foldl (fun n c => 10 * n + digitVal c) 0

/-- Modelled from the spec: unsigned decimal float literal, `digits` with an
optional fractional part `digits.digits` (at least one digit overall). -/
def parseUnsignedQ (l : List Char) : Option ℚ :=
  let ip := l.takeWhile (fun c => c.isDigit)
  match l.drop ip.length with
  | [] => if ip = [] then none else some (natOfDigits ip : ℚ)
  | '.' :: fp =>
    if fp.all (fun c => c.isDigit) ∧ (ip ≠ [] ∨ fp ≠ []) then
      some ((natOfDigits ip : ℚ) + mkRat (natOfDigits fp) (10 ^ fp.length))
    else none
  | _ => none

/-- Modelled from the spec: Python `float()` on a text field — an optional
sign followed by an unsigned decimal literal. -/
def parsePyFloat (l : List Char) : Option ℚ :=
  match l with
  | [] => none
  | c :: rest =>
    if c = '-' then (parseUnsignedQ rest).map (fun q => -q)
    else if c = '+' then parseUnsignedQ rest
    else parseUnsignedQ (c :: rest)

/-- Modelled from the spec: one table line — split on commas, succeed only if
every field parses as a float. -/
def parseLine (line : List Char) : Option (List ℚ) :=
  (splitP (fun c => c = ',') line).mapM parsePyFloat

/-- Modelled from the spec: table parse.  Newline-delimited lines, lines with
an unparseable field skipped, surviving rows distributed across `n` columns in
order (excess fields ignored, short rows contribute to the columns they
cover). -/
def parse_table_data (s : String) (n : Nat) : List (List ℚ) :=
  let rows := (splitP (fun c => c = '\n') s.data).filterMap parseLine
  (List.range n).map (fun j => rows.filterMap (fun r => r.get? j))

/-- Modelled from the spec: version parse, `v<major>.<minor>.<patch>`, with
`(0,0,0)` as the sentinel on any mismatch. -/
def parseVersion (payload : String) : Nat × Nat × Nat :=
  match payload.data with
  | 'v' :: rest =>
    match splitP (fun c => c = '.') rest with
    | [a, b, c] =>
      if a ≠ [] ∧ b ≠ [] ∧ c ≠ [] ∧ (a ++ b ++ c).all (fun ch => ch.isDigit) then
        (natOfDigits a, natOfDigits b, natOfDigits c)
      else (0, 0, 0)
    | _ => (0, 0, 0)
  | _ => (0, 0, 0)

/-- Modelled from the spec: firmware-version read — `(0,0,0)` on `Error`
status, otherwise the parsed payload. -/
def read_firmware_version (reply : CommandOutcome) : Nat × Nat × Nat :=
  match reply.1 with
  | .error => (0, 0, 0)
  | _ => parseVersion reply.2

/-- Modelled from the spec: position parse.  On `Error` status an all-absent
triple; otherwise the payload must split into exactly three whitespace
separated fields `X<f> Y<f> Z<f>`, else `MalformedReply`. -/
def read_current_position (reply : CommandOutcome) :
    Except OMSError (Option ℚ × Option ℚ × Option ℚ) :=
  match reply.1 with
  | .error => .ok (none, none, none)
  | _ =>
    match wordsOf reply.2 with
    | ['X' :: a, 'Y' :: b, 'Z' :: c] =>
      match parsePyFloat a, parsePyFloat b, parsePyFloat c with
      | some x, some y, some z => .ok (some x, some y, some z)
      | _, _, _ => .error .malformedReply
    | _ => .error .malformedReply

/-- Decidable mirror of the position-payload shape accepted by
`read_current_position`: exactly three whitespace-separated fields
`X<f> Y<f> Z<f>` in that order. -/
def positionShape (payload : String) : Bool :=
  match wordsOf payload with
  | ['X' :: a, 'Y' :: b, 'Z' :: c] =>
    (parsePyFloat a).isSome && (parsePyFloat b).isSome && (parsePyFloat c).isSome
  | _ => false

/-! ## Command encoding and the session controller (modelled from the spec) -/

/-- Modelled from the spec: the hard-coded firmware compatibility floor.  The
tests accept `v1.0.1` and reject `v0.9.0`. -/
def MIN_FIRMWARE_VERSION : Nat × Nat × Nat := (1, 0, 0)

/-- Lexicographic order on version triples. -/
def versionLt (a b : Nat × Nat × Nat) : Bool :=
  a.1 < b.1 ∨ (a.1 = b.1 ∧ (a.2.1 < b.2.1 ∨ (a.2.1 = b.2.1 ∧ a.2.2 < b.2.2)))

/-- Modelled from the spec: `connect` opens the transport, issues the
firmware-version read (the first scripted reply), and keeps the connection
only when the version reaches the compatibility floor.  The result is the
connection state plus the number of commands issued; no exception is
raised. -/
def connect (script : List CommandOutcome) : Option Unit × Nat :=
  match script with
  | [] => (none, 1)
  | r :: _ =>
    if versionLt (read_firmware_version r) MIN_FIRMWARE_VERSION then (none, 1)
    else (some (), 1)

/-- Modelled from the spec: one transport exchange — the device consumes the
command and answers with the next scripted reply. -/
def sendOnce (cmd : String) (script : List CommandOutcome) :
    Option (CommandOutcome × List String) :=
  match script with
  | [] => none
  | r :: _ => some (r, [cmd])

/-- Modelled from the spec: the busy-retry policy.  In blocking mode a `Busy`
reply makes the identical command be re-issued until a non-`Busy` status
arrives; in non-blocking mode the first reply is returned unchanged.  The
result carries the reply handed to the caller and the list of commands that
went over the transport. -/
def sendBlocking (cmd : String) (blocking : Bool) :
    List CommandOutcome → Option (CommandOutcome × List String)
  | [] => none
  | r :: rest =>
    if blocking = true ∧ r.1 = .busy then
      match sendBlocking cmd blocking rest with
      | some (res, sent) => some (res, cmd :: sent)
      | none => none
    else some (r, [cmd])

/-- Modelled from the spec: the `G0` move command.  The workspace transform is
applied to the homogeneous point `[x, y, z, 1]` through `matrix_dot_product`
before encoding; an `I` suffix flags immediate response. -/
def encode_move (T : List (List ℚ)) (x y z f : ℚ) (imm : Bool) : Except PyErr String := do
  let p ← matrix_dot_product T [x, y, z, 1]
  pure ⟨"G0 X".data ++ fmtFixed 6 (p.getD 0 0) ++ " Y".data ++ fmtFixed 6 (p.getD 1 0) ++
    " Z".data ++ fmtFixed 6 (p.getD 2 0) ++ " F".data ++ fmtFixed 6 f ++
    (if imm then " I".data else []) ++ "\n".data⟩

/-- Modelled from the spec: `move_to` — encode through the workspace
transform, then submit under the busy-retry policy. -/
def move_to (T : List (List ℚ)) (x y z f : ℚ) (imm blocking : Bool)
    (script : List CommandOutcome) : Except PyErr (Option (CommandOutcome × List String)) := do
  let cmd ← encode_move T x y z f imm
  pure (sendBlocking cmd blocking script)

/-- Modelled from the spec: the `G4` dwell command. -/
def dwellCmd (t : ℚ) : String := ⟨"G4 S".data ++ fmtFixed 6 t ++ "\n".data⟩

/-- Modelled from the spec: `dwell` — encode, then submit under the
busy-retry policy. -/
def dwell (t : ℚ) (blocking : Bool) (script : List CommandOutcome) :
    Option (CommandOutcome × List String) :=
  sendBlocking (dwellCmd t) blocking script

/-- Modelled from the spec: the clamp floor of `set_max_acceleration`. -/
def ACCEL_MIN : ℚ := mkRat 1 100

/-- Modelled from the spec: the `M204` command, both operands floor-clamped
to `ACCEL_MIN` before formatting. -/
def setMaxAccelCmd (lin ang : ℚ) : String :=
  ⟨"M204 L".data ++ fmtFixed 6 (max lin ACCEL_MIN) ++ " A".data ++
    fmtFixed 6 (max ang ACCEL_MIN) ++ "\n".data⟩

/-- Modelled from the spec: the letters of the six axes, referenced by index. -/
def axisLetters : List Char := ['A', 'B', 'C', 'D', 'E', 'F']

/-- Single-space join of axis letters. -/
def joinSpaced : List Char → List Char
  | [] => []
  | [c] => [c]
  | c :: rest => c :: ' ' :: joinSpaced rest

/-- Modelled from the spec: the `G28` homing command for a list of axis
indices. -/
def homeCmd (axis_list : List Nat) : String :=
  ⟨"G28 ".data ++ joinSpaced (axis_list.map (fun i => axisLetters.getD i 'A')) ++ "\n".data⟩

/-- Modelled from the spec: `home` — any index outside `0..5` (and any
duplicate index) is a caller error detected before any transport call. -/
def home (axis_list : List Nat) (script : List CommandOutcome) :
    Except OMSError (Option (CommandOutcome × List String)) :=
  if (∀ i ∈ axis_list, i ≤ 5) ∧ axis_list.Nodup then
    .ok (sendOnce (homeCmd axis_list) script)
  else .error .invalidArgument

/-- Modelled from the spec: `wait_for_stop` — repeatedly issue the fixed
status query `M53`; an `Error` status terminates immediately propagating the
error, an `Ok` reply with payload `"1"` terminates with success, anything
else continues the loop.  The result carries the final status and the list of
issued commands. -/
def wait_for_stop : List CommandOutcome → Option (ReplyStatus × List String)
  | [] => none
  | (s, p) :: rest =>
    if s = .error then some (.error, ["M53\n"])
    else if s = .ok ∧ p = "1" then some (.ok, ["M53\n"])
    else
      match wait_for_stop rest with
      | some (r, sent) => some (r, "M53\n" :: sent)
      | none => none

/-! ## Helper lemmas: evaluating the Python loops -/

theorem pyGet_ok {α : Type} (l : List α) (i : Nat) (d : α) (h : i < l.length) :
    pyGet l i = .ok (l.getD i d) := by
  simp [pyGet, List.getD, List.get?_eq_getElem?, List.getElem?_eq_getElem h]

theorem pyGet_err {α : Type} (l : List α) (i : Nat) (h : l.length ≤ i) :
    pyGet l i = .error .indexError := by
  simp [pyGet, List.get?_eq_getElem?, List.getElem?_eq_none h]

theorem mapM_loop_ok {ε α β : Type} (f : α → Except ε β) (g : α → β) (L : List α)
    (h : ∀ a ∈ L, f a = .ok (g a)) (acc : List β) :
    List.mapM.loop f L acc = .ok (acc.reverse ++ L.map g) := by
  induction L generalizing acc with
  | nil =>
    show Except.ok acc.reverse = _
    simp
  | cons a t ih =>
    rw [List.mapM.loop, h a (by simp)]
    show List.mapM.loop f t (g a :: acc) = _
    rw [ih (fun b hb => h b (by simp [hb])) (g a :: acc)]
    simp

theorem mapM_ok {ε α β : Type} (f : α → Except ε β) (g : α → β) (L : List α)
    (h : ∀ a ∈ L, f a = .ok (g a)) :
    L.mapM f = .ok (L.map g) := by
  rw [List.mapM, mapM_loop_ok f g L h []]
  rfl

theorem foldlM_ok {ε σ α : Type} (f : σ → α → Except ε σ) (g : σ → α → σ) (L : List α)
    (h : ∀ s a, a ∈ L → f s a = .ok (g s a)) (c : σ) :
    L.foldlM f c = .ok (L.foldl g c) := by
  induction L generalizing c with
  | nil => rfl
  | cons a t ih =>
    rw [List.foldlM, h c a (by simp)]
    show t.foldlM f (g c a) = _
    rw [ih (fun s b hb => h s b (by simp [hb])) (g c a)]
    rfl

/-- Successful evaluation of `matrix_dot_product` when the dimension check
passes and every row is long enough for the accesses the loops perform. -/
theorem matrix_dot_product_ok (A : List (List ℚ)) (B : List ℚ) (hA : A ≠ [])
    (hlen : (A.headD []).length = B.length)
    (hrow : ∀ r ∈ A, B.length ≤ r.length) :
    matrix_dot_product A B = .ok ((List.range A.length).map (fun i =>
      (List.range B.length).foldl (fun acc j => acc + (A.getD i []).getD j 0 * B.getD j 0) 0)) := by
  have hA0 : 0 < A.length := List.length_pos.mpr hA
  have h0 : pyGet A 0 = .ok (A.getD 0 []) := pyGet_ok A 0 [] hA0
  have hhead : A.getD 0 [] = A.headD [] := by
    cases A with
    | nil => simp at hA0
    | cons r t => rfl
  rw [matrix_dot_product, h0]
  show (if (A.getD 0 []).length ≠ B.length then _ else _) = _
  rw [hhead, hlen, if_neg (by simp)]
  apply mapM_ok
  intro i hi
  simp only [List.mem_range] at hi
  apply foldlM_ok
  intro s j hj
  simp only [List.mem_range] at hj
  have hAi : pyGet A i = .ok (A.getD i []) := pyGet_ok A i [] hi
  have hrowi : B.length ≤ (A.getD i []).length := by
    apply hrow
    rw [List.getD_eq_getElem A [] hi]
    exact List.getElem_mem hi
  have hAij : pyGet (A.getD i []) j = .ok ((A.getD i []).getD j 0) :=
    pyGet_ok _ j 0 (lt_of_lt_of_le hj hrowi)
  have hBj : pyGet B j = .ok (B.getD j 0) := pyGet_ok B j 0 hj
  rw [hAi]
  show (do
    let Aij ← pyGet (A.getD i []) j
    let Bj ← pyGet B j
    pure (s + Aij * Bj) : Except PyErr ℚ) = _
  rw [hAij, hBj]
  rfl

theorem generate_eye_length (n : Nat) : (generate_eye n).length = n := by
  simp [generate_eye]

theorem generate_eye_row (n i : Nat) (hi : i < n) :
    (generate_eye n).getD i [] = (List.range n).map (fun j => if i = j then (1 : ℚ) else 0) := by
  have hi' : i < (generate_eye n).length := by rw [generate_eye_length]; exact hi
  rw [List.getD_eq_getElem _ [] hi']
  simp [generate_eye]

theorem generate_eye_entry (n i j : Nat) (hi : i < n) (hj : j < n) :
    ((generate_eye n).getD i []).getD j 0 = if i = j then (1 : ℚ) else 0 := by
  rw [generate_eye_row n i hi]
  have hj' : j < ((List.range n).map (fun j => if i = j then (1 : ℚ) else 0)).length := by
    simpa using hj
  rw [List.getD_eq_getElem _ 0 hj']
  simp

theorem foldl_add_eq_sum (g : Nat → ℚ) (L : List Nat) (c : ℚ) :
    L.foldl (fun a j => a + g j) c = c + (L.map g).sum := by
  induction L generalizing c with
  | nil => simp
  | cons a t ih =>
    simp only [List.foldl_cons, List.map_cons, List.sum_cons]
    rw [ih (c + g a), add_assoc]

theorem sum_delta_mul (n i : Nat) (w : Nat → ℚ) :
    (((List.range n).map (fun j => (if i = j then (1 : ℚ) else 0) * w j)).sum) =
      if i < n then w i else 0 := by
  induction n with
  | zero => simp
  | succ m ih =>
    rw [List.range_succ, List.map_append, List.sum_append, ih]
    by_cases h1 : i < m
    · have h2 : i ≠ m := Nat.ne_of_lt h1
      simp [h1, h2, Nat.lt_succ_of_lt h1]
    · by_cases h2 : i = m
      · subst h2
        simp [h1, Nat.lt_succ_self]
      · have h3 : ¬ i < m + 1 := by omega
        simp [h1, h2, h3, Ne.symm h2]

/-- The identity transform maps every vector of matching length to itself. -/
theorem matrix_dot_product_eye (n : Nat) (v : List ℚ) (hv : v.length = n) (hn : 1 ≤ n) :
    matrix_dot_product (generate_eye n) v = .ok v := by
  have hne : generate_eye n ≠ [] := by
    intro h
    have := generate_eye_length n
    rw [h] at this
    simp at this
    omega
  have hhead : (generate_eye n).headD [] = (generate_eye n).getD 0 [] := by
    cases hgen : generate_eye n with
    | nil => exact absurd hgen hne
    | cons r t => rfl
  have hlen : ((generate_eye n).headD []).length = v.length := by
    rw [hhead, generate_eye_row n 0 (by omega)]
    simp [hv]
  have hrow : ∀ r ∈ generate_eye n, v.length ≤ r.length := by
    intro r hr
    simp only [generate_eye, List.mem_map] at hr
    obtain ⟨i, _, rfl⟩ := hr
    simp [hv]
  rw [matrix_dot_product_ok (generate_eye n) v hne hlen hrow]
  congr 1
  rw [generate_eye_length]
  apply List.ext_getElem
  · simp [hv]
  · intro i h1 h2
    have hi : i < n := by simpa using h1
    rw [List.getElem_map, List.getElem_range]
    rw [foldl_add_eq_sum (fun j => ((generate_eye n).getD i []).getD j 0 * v.getD j 0)
      (List.range v.length) 0]
    have : ((List.range v.length).map
        (fun j => ((generate_eye n).getD i []).getD j 0 * v.getD j 0)).sum =
        ((List.range n).map (fun j => (if i = j then (1 : ℚ) else 0) * v.getD j 0)).sum := by
      rw [hv]
      congr 1
      apply List.map_congr_left
      intro j hj
      rw [generate_eye_entry n i j hi (by simpa using hj)]
    rw [this, sum_delta_mul n i (fun j => v.getD j 0), if_pos hi, zero_add]
    exact List.getD_eq_getElem v 0 h2

/-- C9: for every `n ≥ 1`, `generate_eye n` is the n-by-n identity matrix
(entry 1 exactly where the row index equals the column index), and
`matrix_dot_product (generate_eye n) v` returns `v` unchanged for every
length-`n` vector `v` — the default identity workspace transform maps every
point to itself. -/
theorem C9_generate_eye_identity (n : Nat) (hn : 1 ≤ n) (v : List ℚ) (hv : v.length = n) :
    (generate_eye n).length = n ∧
    (∀ i, i < n → ((generate_eye n).getD i []).length = n ∧
      ∀ j, j < n → ((generate_eye n).getD i []).getD j 0 = if i = j then (1 : ℚ) else 0) ∧
    matrix_dot_product (generate_eye n) v = .ok v := by
  refine ⟨generate_eye_length n, fun i hi => ⟨?_, fun j hj => generate_eye_entry n i j hi hj⟩,
    matrix_dot_product_eye n v hv hn⟩
  rw [generate_eye_row n i hi]
  simp

/-- Witness for C9 at `n = 2`, `v = [5, 7]`. -/
theorem C9_generate_eye_identity_witness :
    (1 ≤ 2 ∧ ([(5 : ℚ), 7]).length = 2) ∧
    ((generate_eye 2).length = 2 ∧
      (∀ i, i < 2 → ((generate_eye 2).getD i []).length = 2 ∧
        ∀ j, j < 2 → ((generate_eye 2).getD i []).getD j 0 = if i = j then (1 : ℚ) else 0) ∧
      matrix_dot_product (generate_eye 2) [5, 7] = .ok [5, 7]) :=
  ⟨⟨by decide, rfl⟩, C9_generate_eye_identity 2 (by decide) [5, 7] rfl⟩

theorem not_isValueError_pyGet {α : Type} (l : List α) (i : Nat) :
    ¬ isValueError (pyGet l i) := by
  unfold pyGet
  cases h : l.get? i <;> simp [isValueError]

theorem not_isValueError_bind {α β : Type} {x : Except PyErr α} {f : α → Except PyErr β}
    (hx : ¬ isValueError x) (hf : ∀ a, ¬ isValueError (f a)) :
    ¬ isValueError (x >>= f) := by
  cases x with
  | error e =>
    cases e with
    | valueError msg => exact absurd trivial hx
    | indexError => exact fun h => h
  | ok a => exact hf a

theorem not_isValueError_foldlM {σ α : Type} (f : σ → α → Except PyErr σ)
    (h : ∀ s a, ¬ isValueError (f s a)) (L : List α) (c : σ) :
    ¬ isValueError (L.foldlM f c) := by
  induction L generalizing c with
  | nil => exact fun hc => hc
  | cons a t ih =>
    rw [List.foldlM]
    exact not_isValueError_bind (h c a) (fun s => ih s)

theorem not_isValueError_mapM_loop {α β : Type} (f : α → Except PyErr β)
    (h : ∀ a, ¬ isValueError (f a)) (L : List α) (acc : List β) :
    ¬ isValueError (List.mapM.loop f L acc) := by
  induction L generalizing acc with
  | nil => exact fun hc => hc
  | cons a t ih =>
    rw [List.mapM.loop]
    exact not_isValueError_bind (h a) (fun b => ih (b :: acc))

theorem not_isValueError_mapM {α β : Type} (f : α → Except PyErr β)
    (h : ∀ a, ¬ isValueError (f a)) (L : List α) :
    ¬ isValueError (L.mapM f) :=
  not_isValueError_mapM_loop f h L []

theorem dot_body_not_isValueError (A : List (List ℚ)) (B : List ℚ) (i : Nat) (s : ℚ) (j : Nat) :
    ¬ isValueError (do
      let Ai ← pyGet A i
      let Aij ← pyGet Ai j
      let Bj ← pyGet B j
      pure (s + Aij * Bj) : Except PyErr ℚ) := by
  apply not_isValueError_bind (not_isValueError_pyGet A i)
  intro Ai
  apply not_isValueError_bind (not_isValueError_pyGet Ai j)
  intro Aij
  apply not_isValueError_bind (not_isValueError_pyGet B j)
  intro Bj
  exact fun hc => hc

theorem mul_body_not_isValueError (A B : List (List ℚ)) (i j : Nat) (s : ℚ) (k : Nat) :
    ¬ isValueError (do
      let Ai ← pyGet A i
      let Aik ← pyGet Ai k
      let Bk ← pyGet B k
      let Bkj ← pyGet Bk j
      pure (s + Aik * Bkj) : Except PyErr ℚ) := by
  apply not_isValueError_bind (not_isValueError_pyGet A i)
  intro Ai
  apply not_isValueError_bind (not_isValueError_pyGet Ai k)
  intro Aik
  apply not_isValueError_bind (not_isValueError_pyGet B k)
  intro Bk
  apply not_isValueError_bind (not_isValueError_pyGet Bk j)
  intro Bkj
  exact fun hc => hc

theorem headD_eq_getD_zero {α : Type} (l : List α) (d : α) : l.headD d = l.getD 0 d := by
  cases l <;> rfl

theorem isValueError_matrix_dot_product_iff (A : List (List ℚ)) (B : List ℚ) (hA : A ≠ []) :
    isValueError (matrix_dot_product A B) ↔ (A.headD []).length ≠ B.length := by
  have hA0 : 0 < A.length := List.length_pos.mpr hA
  have h0 : pyGet A 0 = .ok (A.getD 0 []) := pyGet_ok A 0 [] hA0
  rw [matrix_dot_product, h0, ← headD_eq_getD_zero]
  show isValueError (if (A.headD []).length ≠ B.length then _ else _) ↔ _
  by_cases hlen : (A.headD []).length = B.length
  · rw [if_neg (by simpa using hlen)]
    exact iff_of_false (not_isValueError_mapM _ (fun i =>
      not_isValueError_foldlM _ (fun s j => dot_body_not_isValueError A B i s j) _ _) _)
      (by simpa using hlen)
  · rw [if_pos hlen]
    exact iff_of_true trivial hlen

theorem isValueError_matrix_multiply_iff (A B : List (List ℚ)) (hA : A ≠ []) :
    isValueError (matrix_multiply A B) ↔ (A.headD []).length ≠ B.length := by
  have hA0 : 0 < A.length := List.length_pos.mpr hA
  have h0 : pyGet A 0 = .ok (A.getD 0 []) := pyGet_ok A 0 [] hA0
  rw [matrix_multiply, h0, ← headD_eq_getD_zero]
  show isValueError (if (A.headD []).length ≠ B.length then _ else _) ↔ _
  by_cases hlen : (A.headD []).length = B.length
  · rw [if_neg (by simpa using hlen)]
    refine iff_of_false ?_ (by simpa using hlen)
    apply not_isValueError_bind (not_isValueError_pyGet B 0)
    intro b0
    exact not_isValueError_mapM _ (fun i => not_isValueError_mapM _ (fun j =>
      not_isValueError_foldlM _ (fun s k => mul_body_not_isValueError A B i j s k) _ _) _) _
  · rw [if_pos hlen]
    exact iff_of_true trivial hlen

/-- Successful evaluation of `matrix_multiply` when the dimension check passes
and every access the loops perform is in range. -/
theorem matrix_multiply_ok (A B : List (List ℚ)) (hA : A ≠ []) (hB : B ≠ [])
    (hlen : (A.headD []).length = B.length)
    (hrowA : ∀ r ∈ A, B.length ≤ r.length)
    (hrowB : ∀ r ∈ B, (B.headD []).length ≤ r.length) :
    matrix_multiply A B = .ok ((List.range A.length).map (fun i =>
      (List.range (B.headD []).length).map (fun j =>
        (List.range B.length).foldl (fun acc k =>
          acc + (A.getD i []).getD k 0 * (B.getD k []).getD j 0) 0))) := by
  have hA0 : 0 < A.length := List.length_pos.mpr hA
  have hB0 : 0 < B.length := List.length_pos.mpr hB
  have h0 : pyGet A 0 = .ok (A.getD 0 []) := pyGet_ok A 0 [] hA0
  have h0B : pyGet B 0 = .ok (B.getD 0 []) := pyGet_ok B 0 [] hB0
  rw [matrix_multiply, h0, ← headD_eq_getD_zero]
  show (if (A.headD []).length ≠ B.length then _ else _) = _
  rw [if_neg (by simpa using hlen)]
  show (do
    let b0 ← pyGet B 0
    (List.range A.length).mapM (fun i =>
      (List.range b0.length).mapM (fun j =>
        (List.range B.length).foldlM (fun acc k => do
          let Ai ← pyGet A i
          let Aik ← pyGet Ai k
          let Bk ← pyGet B k
          let Bkj ← pyGet Bk j
          pure (acc + Aik * Bkj)) (0 : ℚ)))) = _
  rw [h0B, ← headD_eq_getD_zero]
  show (List.range A.length).mapM _ = _
  apply mapM_ok
  intro i hi
  simp only [List.mem_range] at hi
  apply mapM_ok
  intro j hj
  apply foldlM_ok
  intro s k hk
  simp only [List.mem_range] at hk
  have hAi : pyGet A i = .ok (A.getD i []) := pyGet_ok A i [] hi
  have hrowAi : B.length ≤ (A.getD i []).length := by
    apply hrowA
    rw [List.getD_eq_getElem A [] hi]
    exact List.getElem_mem hi
  have hAik : pyGet (A.getD i []) k = .ok ((A.getD i []).getD k 0) :=
    pyGet_ok _ k 0 (lt_of_lt_of_le hk hrowAi)
  have hBk : pyGet B k = .ok (B.getD k []) := pyGet_ok B k [] hk
  have hj' : j < (B.headD []).length := by simpa using hj
  have hrowBk : (B.headD []).length ≤ (B.getD k []).length := by
    apply hrowB
    rw [List.getD_eq_getElem B [] hk]
    exact List.getElem_mem hk
  have hBkj : pyGet (B.getD k []) j = .ok ((B.getD k []).getD j 0) :=
    pyGet_ok _ j 0 (lt_of_lt_of_le hj' hrowBk)
  rw [hAi]
  show (do
    let Aik ← pyGet (A.getD i []) k
    let Bk ← pyGet B k
    let Bkj ← pyGet Bk j
    pure (s + Aik * Bkj) : Except PyErr ℚ) = _
  rw [hAik, hBk]
  show (do
    let Bkj ← pyGet (B.getD k []) j
    pure (s + (A.getD i []).getD k 0 * Bkj) : Except PyErr ℚ) = _
  rw [hBkj]
  rfl

/-- C10 (amended): for every non-empty `A`, `matrix_multiply A B` and
`matrix_dot_product A B` raise `ValueError` exactly when the length of `A`'s
first row differs from `len B`; when the lengths match the functions return
normally with exactly `len A` output rows/entries, provided the books they
index stay in range: `A` rectangular, and for `matrix_multiply` additionally
`B` non-empty and rectangular.  (The original claim, without the
rectangularity/non-emptiness proviso, fails: see the counterexample.) -/
theorem C10_matrix_error_contract (A Bm : List (List ℚ)) (Bv : List ℚ) (hA : A ≠ []) :
    (isValueError (matrix_multiply A Bm) ↔ (A.headD []).length ≠ Bm.length) ∧
    (isValueError (matrix_dot_product A Bv) ↔ (A.headD []).length ≠ Bv.length) ∧
    (Rect A → (A.headD []).length = Bv.length →
      ∃ r, matrix_dot_product A Bv = .ok r ∧ r.length = A.length) ∧
    (Rect A → Rect Bm → Bm ≠ [] → (A.headD []).length = Bm.length →
      ∃ R, matrix_multiply A Bm = .ok R ∧ R.length = A.length) := by
  refine ⟨isValueError_matrix_multiply_iff A Bm hA,
    isValueError_matrix_dot_product_iff A Bv hA, ?_, ?_⟩
  · intro hrect hlen
    refine ⟨_, matrix_dot_product_ok A Bv hA hlen (fun r hr => (hrect r hr).symm ▸ hlen ▸ le_refl _), ?_⟩
    simp
  · intro hrectA hrectB hBm hlen
    refine ⟨_, matrix_multiply_ok A Bm hA hBm hlen
      (fun r hr => (hrectA r hr).symm ▸ hlen ▸ le_refl _)
      (fun r hr => (hrectB r hr).symm ▸ le_refl _), ?_⟩
    simp

/-- Counterexample to C10 as frozen: for the non-empty ragged matrix
`[[1, 2], [3]]` and the vector `[9, 9]` the lengths match, yet
`matrix_dot_product` neither returns normally nor raises `ValueError` — it
raises `IndexError` while reading past the short second row. -/
theorem C10_matrix_error_contract_cex :
    ([[1, 2], [3]] : List (List ℚ)) ≠ [] ∧
    (([[1, 2], [3]] : List (List ℚ)).headD []).length = ([9, 9] : List ℚ).length ∧
    matrix_dot_product [[1, 2], [3]] [9, 9] = .error .indexError := by
  refine ⟨?_, rfl, rfl⟩
  simp

/-- Witness for C10 at `A = [[1,0],[0,1]]`, `Bm = [[2],[3]]`, `Bv = [5,7]`. -/
theorem C10_matrix_error_contract_witness :
    (([[1, 0], [0, 1]] : List (List ℚ)) ≠ [] ∧ Rect [[1, 0], [0, 1]] ∧
      Rect ([[2], [3]] : List (List ℚ)) ∧ ([[2], [3]] : List (List ℚ)) ≠ [] ∧
      (([[1, 0], [0, 1]] : List (List ℚ)).headD []).length = ([5, 7] : List ℚ).length ∧
      (([[1, 0], [0, 1]] : List (List ℚ)).headD []).length = ([[2], [3]] : List (List ℚ)).length) ∧
    (∃ r, matrix_dot_product [[1, 0], [0, 1]] [5, 7] = .ok r ∧
      r.length = ([[1, 0], [0, 1]] : List (List ℚ)).length) ∧
    (∃ R, matrix_multiply [[1, 0], [0, 1]] [[2], [3]] = .ok R ∧
      R.length = ([[1, 0], [0, 1]] : List (List ℚ)).length) :=
  ⟨⟨by simp, by decide, by decide, by simp, by decide, by decide⟩,
    (C10_matrix_error_contract [[1, 0], [0, 1]] [[2], [3]] [5, 7] (by simp)).2.2.1
      (by decide) (by decide),
    (C10_matrix_error_contract [[1, 0], [0, 1]] [[2], [3]] [5, 7] (by simp)).2.2.2
      (by decide) (by decide) (by simp) (by decide)⟩

/-! ## Busy-retry, polling and connect (claims C2, C3, C8) -/

theorem sendBlocking_true_spec (cmd : String) (script : List CommandOutcome) :
    ∀ res sent, sendBlocking cmd true script = some (res, sent) →
      res.1 ≠ .busy ∧ ∀ c ∈ sent, c = cmd := by
  induction script with
  | nil => intro res sent h; simp [sendBlocking] at h
  | cons r rest ih =>
    intro res sent h
    rw [sendBlocking] at h
    by_cases hb : r.1 = .busy
    · rw [if_pos ⟨rfl, hb⟩] at h
      cases hrec : sendBlocking cmd true rest with
      | none => rw [hrec] at h; simp at h
      | some pr =>
        rw [hrec] at h
        obtain ⟨res', sent'⟩ := pr
        simp only [Option.some.injEq, Prod.mk.injEq] at h
        obtain ⟨h1, h2⟩ := h
        obtain ⟨hres, hsent⟩ := ih res' sent' hrec
        subst h1
        refine ⟨hres, ?_⟩
        intro c hc
        rw [← h2] at hc
        rcases List.mem_cons.mp hc with hc | hc
        · exact hc
        · exact hsent c hc
    · rw [if_neg (by simp [hb])] at h
      simp only [Option.some.injEq, Prod.mk.injEq] at h
      obtain ⟨h1, h2⟩ := h
      subst h1
      refine ⟨hb, ?_⟩
      intro c hc
      rw [← h2] at hc
      simpa using hc

/-- C2: in blocking mode a motion-class command (`move_to`, `dwell`) re-issues
the identical command on every `Busy` reply until a non-`Busy` status arrives,
so the caller never sees `Busy`; the reply script `[Busy, Ok]` produces
exactly 2 transport calls and a final `Ok`.  In non-blocking mode the first
reply — `Busy` included — is returned unchanged after exactly 1 call. -/
theorem C2_blocking_busy_retry :
    (∀ T x y z f imm script res sent,
      move_to T x y z f imm true script = .ok (some (res, sent)) →
        res.1 ≠ .busy ∧ ∃ cmd, encode_move T x y z f imm = .ok cmd ∧ ∀ c ∈ sent, c = cmd) ∧
    (∀ t script res sent, dwell t true script = some (res, sent) →
      res.1 ≠ .busy ∧ ∀ c ∈ sent, c = dwellCmd t) ∧
    (∀ cmd p1 p2, sendBlocking cmd true [(.busy, p1), (.ok, p2)] = some ((.ok, p2), [cmd, cmd])) ∧
    (∀ cmd s p rest, sendBlocking cmd false ((s, p) :: rest) = some ((s, p), [cmd])) := by
  refine ⟨?_, ?_, ?_, ?_⟩
  · intro T x y z f imm script res sent h
    cases henc : encode_move T x y z f imm with
    | error e =>
      rw [move_to, henc] at h
      exact absurd h (by simp [Bind.bind, Except.bind])
    | ok cmd =>
      rw [move_to, henc] at h
      replace h : sendBlocking cmd true script = some (res, sent) := by
        simpa [Bind.bind, Except.bind, Pure.pure, Except.pure] using h
      obtain ⟨hres, hsent⟩ := sendBlocking_true_spec cmd script res sent h
      exact ⟨hres, cmd, rfl, hsent⟩
  · intro t script res sent h
    exact sendBlocking_true_spec (dwellCmd t) script res sent h
  · intro cmd p1 p2
    rfl
  · intro cmd s p rest
    rw [sendBlocking]
    rcases hs : s with _ | _ | _ <;> simp

/-- Witness for C2: a `dwell` under script `[Busy, Ok]`, and a `move_to` under
the same script whose transmitted command is recovered from the encoder. -/
theorem C2_blocking_busy_retry_witness :
    (dwell 1 true [(.busy, ""), (.ok, "x")] =
      some ((.ok, "x"), [dwellCmd 1, dwellCmd 1]) ∧
      ((.ok, "x") : CommandOutcome).1 ≠ .busy ∧
      ∀ c ∈ [dwellCmd 1, dwellCmd 1], c = dwellCmd 1) ∧
    (((.ok, "x") : CommandOutcome).1 ≠ .busy ∧
      ∃ cmd, encode_move (generate_eye 4) 0 0 0 1 false = .ok cmd ∧
        ∀ c ∈ [(encode_move (generate_eye 4) 0 0 0 1 false).toOption.getD "",
          (encode_move (generate_eye 4) 0 0 0 1 false).toOption.getD ""], c = cmd) :=
  ⟨⟨rfl,
    (C2_blocking_busy_retry.2.1 1 [(.busy, ""), (.ok, "x")] (.ok, "x")
      [dwellCmd 1, dwellCmd 1] rfl).1,
    (C2_blocking_busy_retry.2.1 1 [(.busy, ""), (.ok, "x")] (.ok, "x")
      [dwellCmd 1, dwellCmd 1] rfl).2⟩,
   C2_blocking_busy_retry.1 (generate_eye 4) 0 0 0 1 false [(.busy, ""), (.ok, "x")]
     (.ok, "x")
     [(encode_move (generate_eye 4) 0 0 0 1 false).toOption.getD "",
      (encode_move (generate_eye 4) 0 0 0 1 false).toOption.getD ""] rfl⟩

/-- C3: `wait_for_stop` repeatedly issues the fixed status query; it succeeds
on the first `Ok` reply with payload `"1"`, keeps polling on any other payload
(`"0"` included), and terminates immediately propagating the error on an
`Error` status.  Over `["0","0","1"]` it makes exactly 3 transport calls and
returns `Ok`; over `[Error]` exactly 1 call returning `Error`. -/
theorem C3_wait_for_stop_poll :
    (∀ p rest, wait_for_stop ((.error, p) :: rest) = some (.error, ["M53\n"])) ∧
    (∀ rest, wait_for_stop ((.ok, "1") :: rest) = some (.ok, ["M53\n"])) ∧
    (∀ s p rest, s ≠ .error → ¬(s = .ok ∧ p = "1") →
      wait_for_stop ((s, p) :: rest) =
        match wait_for_stop rest with
        | some (r, sent) => some (r, "M53\n" :: sent)
        | none => none) ∧
    wait_for_stop [(.ok, "0"), (.ok, "0"), (.ok, "1")] =
      some (.ok, ["M53\n", "M53\n", "M53\n"]) ∧
    wait_for_stop [(.error, "")] = some (.error, ["M53\n"]) := by
  refine ⟨?_, ?_, ?_, rfl, rfl⟩
  · intro p rest
    rw [wait_for_stop]
    simp
  · intro rest
    rw [wait_for_stop]
    simp
  · intro s p rest h1 h2
    rw [wait_for_stop]
    rw [if_neg h1, if_neg h2]

/-- Witness for C3: an `Ok "0"` reply keeps the loop polling. -/
theorem C3_wait_for_stop_poll_witness :
    (ReplyStatus.ok ≠ ReplyStatus.error ∧ ¬(ReplyStatus.ok = .ok ∧ "0" = "1")) ∧
    wait_for_stop ((.ok, "0") :: [(.ok, "1")]) =
      (match wait_for_stop [(.ok, "1")] with
       | some (r, sent) => some (r, "M53\n" :: sent)
       | none => none) :=
  ⟨⟨by decide, by simp⟩,
    C3_wait_for_stop_poll.2.2.1 .ok "0" [(.ok, "1")] (by decide) (by simp)⟩

/-- C8: a `connect` that reads a firmware version below the hard-coded
compatibility floor leaves the connection unset and issues no further
commands (exactly the one version query); the model returns a plain value, no
exception is involved. -/
theorem C8_connect_incompatible_firmware :
    (∀ r rest, versionLt (read_firmware_version r) MIN_FIRMWARE_VERSION = true →
      connect (r :: rest) = (none, 1)) ∧
    connect [(.ok, "v0.9.0")] = (none, 1) := by
  refine ⟨?_, rfl⟩
  intro r rest h
  rw [connect, if_pos h]

/-- Witness for C8 at the tested incompatible version `v0.9.0`. -/
theorem C8_connect_incompatible_firmware_witness :
    versionLt (read_firmware_version (.ok, "v0.9.0")) MIN_FIRMWARE_VERSION = true ∧
    connect ((.ok, "v0.9.0") :: []) = (none, 1) :=
  ⟨rfl, C8_connect_incompatible_firmware.1 (.ok, "v0.9.0") [] rfl⟩

/-! ## Homing and acceleration encoding (claims C5, C6) -/

theorem axisLetter_strict_mono :
    ∀ i < 6, ∀ j < 6, i < j →
      (axisLetters.getD i 'A').toNat < (axisLetters.getD j 'A').toNat := by decide

/-- C5: for every ascending duplicate-free list of axis indices within `0..5`,
`home` encodes the `G28` command whose letters are exactly the selected axes'
letters, strictly ascending and duplicate-free; any index outside `0..5` makes
`home` fail with `InvalidArgument` under every transport script, so before
any transport call. -/
theorem C5_home_axis_selection :
    (∀ l script, (∀ i ∈ l, i ≤ 5) → List.Pairwise (· < ·) l →
      home l script = .ok (sendOnce (homeCmd l) script) ∧
      List.Pairwise (fun a b => a.toNat < b.toNat)
        (l.map (fun i => axisLetters.getD i 'A')) ∧
      (l.map (fun i => axisLetters.getD i 'A')).Nodup) ∧
    (∀ l script, (∃ i ∈ l, 5 < i) → home l script = .error .invalidArgument) ∧
    homeCmd [0, 1, 2, 3, 4, 5] = "G28 A B C D E F\n" ∧
    homeCmd [0, 2] = "G28 A C\n" := by
  refine ⟨?_, ?_, rfl, rfl⟩
  · intro l script hle hsort
    have hnodup : l.Nodup := hsort.imp (fun h => Nat.ne_of_lt h)
    have hletters : List.Pairwise (fun a b => a.toNat < b.toNat)
        (l.map (fun i => axisLetters.getD i 'A')) := by
      rw [List.pairwise_map]
      refine List.Pairwise.imp_of_mem ?_ hsort
      intro a b ha hb hab
      have ha6 : a < 6 := by have := hle a ha; omega
      have hb6 : b < 6 := by have := hle b hb; omega
      exact axisLetter_strict_mono a ha6 b hb6 hab
    refine ⟨?_, hletters, ?_⟩
    · rw [home, if_pos ⟨hle, hnodup⟩]
    · exact hletters.imp (fun h => by
        intro heq
        rw [heq] at h
        exact lt_irrefl _ h)
  · intro l script h
    obtain ⟨i, hi, h5⟩ := h
    rw [home, if_neg]
    intro hc
    obtain ⟨hall, _⟩ := hc
    have := hall i hi
    omega

/-- Witness for C5 at the tested subset `[0, 2]` and the invalid index `10`. -/
theorem C5_home_axis_selection_witness :
    ((∀ i ∈ [0, 2], i ≤ 5) ∧ List.Pairwise (· < ·) [0, 2] ∧
      (∃ i ∈ [10], 5 < i)) ∧
    (home [0, 2] [(.ok, "")] = .ok (sendOnce (homeCmd [0, 2]) [(.ok, "")]) ∧
      List.Pairwise (fun a b => a.toNat < b.toNat)
        ([0, 2].map (fun i => axisLetters.getD i 'A')) ∧
      ([0, 2].map (fun i => axisLetters.getD i 'A')).Nodup) ∧
    home [10] [(.ok, "")] = .error .invalidArgument :=
  ⟨⟨by decide, by decide, by decide⟩,
    C5_home_axis_selection.1 [0, 2] [(.ok, "")] (by decide) (by decide),
    C5_home_axis_selection.2.1 [10] [(.ok, "")] (by decide)⟩

/-- C6: `set_max_acceleration` floor-clamps both operands at `0.01` before
the 6-decimal fixed-point formatting of the `M204` command: operands at or
above the floor are encoded unchanged, operands at or below it are encoded as
the floor; `(0.001, 0.001)` encodes `M204 L0.010000 A0.010000` and
`(100, 50)` encodes `M204 L100.000000 A50.000000`. -/
theorem C6_set_max_acceleration_clamp :
    (∀ lin ang, ACCEL_MIN ≤ lin → ACCEL_MIN ≤ ang →
      setMaxAccelCmd lin ang =
        ⟨"M204 L".data ++ fmtFixed 6 lin ++ " A".data ++ fmtFixed 6 ang ++ "\n".data⟩) ∧
    (∀ lin ang, lin ≤ ACCEL_MIN → ang ≤ ACCEL_MIN →
      setMaxAccelCmd lin ang =
        ⟨"M204 L".data ++ fmtFixed 6 ACCEL_MIN ++ " A".data ++
          fmtFixed 6 ACCEL_MIN ++ "\n".data⟩) ∧
    setMaxAccelCmd (mkRat 1 1000) (mkRat 1 1000) = "M204 L0.010000 A0.010000\n" ∧
    setMaxAccelCmd 100 50 = "M204 L100.000000 A50.000000\n" := by
  refine ⟨?_, ?_, rfl, rfl⟩
  · intro lin ang hl ha
    rw [setMaxAccelCmd, max_eq_left hl, max_eq_left ha]
  · intro lin ang hl ha
    rw [setMaxAccelCmd, max_eq_right hl, max_eq_right ha]

/-- Witness for C6: an operand above the floor and one below it. -/
theorem C6_set_max_acceleration_clamp_witness :
    (ACCEL_MIN ≤ (100 : ℚ) ∧ ACCEL_MIN ≤ (50 : ℚ) ∧
      (0 : ℚ) ≤ ACCEL_MIN) ∧
    setMaxAccelCmd 100 50 =
      ⟨"M204 L".data ++ fmtFixed 6 100 ++ " A".data ++ fmtFixed 6 50 ++ "\n".data⟩ ∧
    setMaxAccelCmd 0 0 =
      ⟨"M204 L".data ++ fmtFixed 6 ACCEL_MIN ++ " A".data ++
        fmtFixed 6 ACCEL_MIN ++ "\n".data⟩ :=
  ⟨⟨by decide, by decide, by decide⟩,
    C6_set_max_acceleration_clamp.1 100 50 (by decide) (by decide),
    C6_set_max_acceleration_clamp.2.1 0 0 (by decide) (by decide)⟩

/-! ## Workspace transform in move_to (claim C1) -/

theorem dot_translation_234 :
    matrix_dot_product [[1, 0, 0, 2], [0, 1, 0, 3], [0, 0, 1, 4], [0, 0, 0, 1]] [0, 0, 0, 1] =
      .ok [2, 3, 4, 1] := by
  simp [matrix_dot_product, pyGet, List.range_succ, List.mapM.loop, Bind.bind, Except.bind,
    Pure.pure, Except.pure, List.foldlM]

/-- C1: `move_to` routes the point through the stored 4x4 workspace transform
before encoding.  With the identity transform the encoded `X`/`Y`/`Z` fields
are the unchanged inputs; with the translation transform
`[[1,0,0,2],[0,1,0,3],[0,0,1,4],[0,0,0,1]]`, moving to `(0,0,0)` encodes
`X2.000000 Y3.000000 Z4.000000` in 6-decimal fixed point. -/
theorem C1_move_to_workspace_transform :
    (∀ x y z f imm, encode_move (generate_eye 4) x y z f imm =
      .ok ⟨"G0 X".data ++ fmtFixed 6 x ++ " Y".data ++ fmtFixed 6 y ++ " Z".data ++
        fmtFixed 6 z ++ " F".data ++ fmtFixed 6 f ++
        (if imm then " I".data else []) ++ "\n".data⟩) ∧
    (∀ f imm, encode_move [[1, 0, 0, 2], [0, 1, 0, 3], [0, 0, 1, 4], [0, 0, 0, 1]] 0 0 0 f imm =
      .ok ⟨"G0 X2.000000 Y3.000000 Z4.000000 F".data ++ fmtFixed 6 f ++
        (if imm then " I".data else []) ++ "\n".data⟩) := by
  constructor
  · intro x y z f imm
    rw [encode_move, matrix_dot_product_eye 4 [x, y, z, 1] rfl (by omega)]
    rfl
  · intro f imm
    rw [encode_move, dot_translation_234]
    rfl

/-! ## Splitting and float-field lemmas (claims C4, C7) -/

theorem takeWhile_append_drop (p : Char → Bool) (l : List Char) :
    l.takeWhile p ++ l.drop (l.takeWhile p).length = l := by
  induction l with
  | nil => rfl
  | cons x t ih =>
    by_cases hx : p x = true
    · rw [List.takeWhile_cons, if_pos hx]
      simpa using ih
    · rw [List.takeWhile_cons, if_neg hx]
      rfl

theorem mem_takeWhile_sat (p : Char → Bool) (l : List Char) :
    ∀ x ∈ l.takeWhile p, p x = true := by
  induction l with
  | nil => simp
  | cons y t ih =>
    by_cases hy : p y = true
    · rw [List.takeWhile_cons, if_pos hy]
      intro x hx
      rcases List.mem_cons.mp hx with rfl | hx
      · exact hy
      · exact ih x hx
    · rw [List.takeWhile_cons, if_neg hy]
      simp

theorem isDigit_not_ws {ch : Char} (h : ch.isDigit = true) : ch.isWhitespace = false := by
  by_contra hws
  rw [Bool.not_eq_false, Char.isWhitespace] at hws
  simp only [Bool.or_eq_true, decide_eq_true_eq] at hws
  rcases hws with ((rfl | rfl) | rfl) | rfl <;> exact absurd h (by decide)

theorem parseUnsignedQ_props {l : List Char} {q : ℚ} (h : parseUnsignedQ l = some q) :
    l ≠ [] ∧ ∀ ch ∈ l, ch.isWhitespace = false := by
  rw [parseUnsignedQ] at h
  have hsplit := takeWhile_append_drop (fun c => c.isDigit) l
  split at h
  · rename_i heq
    rw [heq, List.append_nil] at hsplit
    split at h
    · exact absurd h (by simp)
    · rename_i hie
      constructor
      · rw [← hsplit]; exact hie
      · intro ch hch
        rw [← hsplit] at hch
        exact isDigit_not_ws (mem_takeWhile_sat _ l ch hch)
  · rename_i fp heq
    split at h
    · rename_i hcond
      rw [heq] at hsplit
      constructor
      · rw [← hsplit]; simp
      · intro ch hch
        rw [← hsplit] at hch
        rcases List.mem_append.mp hch with hch | hch
        · exact isDigit_not_ws (mem_takeWhile_sat _ l ch hch)
        · rcases List.mem_cons.mp hch with rfl | hch
          · rfl
          · exact isDigit_not_ws (by simpa using List.all_eq_true.mp hcond.1 ch hch)
    · exact absurd h (by simp)
  · exact absurd h (by simp)

theorem parsePyFloat_props {l : List Char} {q : ℚ} (h : parsePyFloat l = some q) :
    l ≠ [] ∧ ∀ ch ∈ l, ch.isWhitespace = false := by
  cases l with
  | nil => exact absurd h (by simp [parsePyFloat])
  | cons c rest =>
    rw [parsePyFloat] at h
    by_cases hminus : c = '-'
    · rw [if_pos hminus] at h
      rw [Option.map_eq_some'] at h
      obtain ⟨q', hq', _⟩ := h
      obtain ⟨_, hws⟩ := parseUnsignedQ_props hq'
      subst hminus
      refine ⟨by simp, ?_⟩
      intro ch hch
      rcases List.mem_cons.mp hch with rfl | hch
      · rfl
      · exact hws ch hch
    · rw [if_neg hminus] at h
      by_cases hplus : c = '+'
      · rw [if_pos hplus] at h
        obtain ⟨_, hws⟩ := parseUnsignedQ_props h
        subst hplus
        refine ⟨by simp, ?_⟩
        intro ch hch
        rcases List.mem_cons.mp hch with rfl | hch
        · rfl
        · exact hws ch hch
      · rw [if_neg hplus] at h
        exact parseUnsignedQ_props h

theorem splitP_append_sep (p : Char → Bool) (a : List Char)
    (ha : ∀ x ∈ a, p x = false) (c : Char) (hc : p c = true) (r : List Char) :
    splitP p (a ++ c :: r) = a :: splitP p r := by
  induction a with
  | nil => simp [splitP, hc]
  | cons x t ih =>
    have hx : p x = false := ha x (by simp)
    rw [List.cons_append, splitP, if_neg (by simp [hx]),
      ih (fun y hy => ha y (by simp [hy]))]

theorem splitP_nosep (p : Char → Bool) (a : List Char) (ha : ∀ x ∈ a, p x = false) :
    splitP p a = [a] := by
  induction a with
  | nil => rfl
  | cons x t ih =>
    have hx : p x = false := ha x (by simp)
    rw [splitP, if_neg (by simp [hx]), ih (fun y hy => ha y (by simp [hy]))]

theorem wordsOf_three (a b c : List Char) (hane : a ≠ []) (hbne : b ≠ []) (hcne : c ≠ [])
    (hwa : ∀ x ∈ a, x.isWhitespace = false) (hwb : ∀ x ∈ b, x.isWhitespace = false)
    (hwc : ∀ x ∈ c, x.isWhitespace = false) :
    wordsOf ⟨a ++ ' ' :: (b ++ ' ' :: c)⟩ = [a, b, c] := by
  show ((splitP (fun ch => ch.isWhitespace) (a ++ ' ' :: (b ++ ' ' :: c))).filter
    (fun w => w ≠ [])) = _
  rw [splitP_append_sep _ a hwa ' ' rfl, splitP_append_sep _ b hwb ' ' rfl,
    splitP_nosep _ c hwc]
  simp [List.filter, hane, hbne, hcne]

theorem read_position_fields (a b c : List Char) (x y z : ℚ)
    (hx : parsePyFloat a = some x) (hy : parsePyFloat b = some y)
    (hz : parsePyFloat c = some z) :
    read_current_position
      (.ok, ⟨('X' :: a) ++ ' ' :: (('Y' :: b) ++ ' ' :: ('Z' :: c))⟩) =
      .ok (some x, some y, some z) := by
  obtain ⟨-, haws⟩ := parsePyFloat_props hx
  obtain ⟨-, hbws⟩ := parsePyFloat_props hy
  obtain ⟨-, hcws⟩ := parsePyFloat_props hz
  have hXa : ∀ ch ∈ 'X' :: a, ch.isWhitespace = false := by
    intro ch hch
    rcases List.mem_cons.mp hch with rfl | hch
    · rfl
    · exact haws ch hch
  have hYb : ∀ ch ∈ 'Y' :: b, ch.isWhitespace = false := by
    intro ch hch
    rcases List.mem_cons.mp hch with rfl | hch
    · rfl
    · exact hbws ch hch
  have hZc : ∀ ch ∈ 'Z' :: c, ch.isWhitespace = false := by
    intro ch hch
    rcases List.mem_cons.mp hch with rfl | hch
    · rfl
    · exact hcws ch hch
  have hw := wordsOf_three ('X' :: a) ('Y' :: b) ('Z' :: c)
    (by simp) (by simp) (by simp) hXa hYb hZc
  rw [read_current_position]
  show (match wordsOf ⟨('X' :: a) ++ ' ' :: (('Y' :: b) ++ ' ' :: ('Z' :: c))⟩ with
    | ['X' :: a, 'Y' :: b, 'Z' :: c] =>
      match parsePyFloat a, parsePyFloat b, parsePyFloat c with
      | some x, some y, some z =>
        (.ok (some x, some y, some z) : Except OMSError (Option ℚ × Option ℚ × Option ℚ))
      | _, _, _ => .error .malformedReply
    | _ => .error .malformedReply) = .ok (some x, some y, some z)
  rw [hw]
  show (match parsePyFloat a, parsePyFloat b, parsePyFloat c with
    | some x, some y, some z =>
      (.ok (some x, some y, some z) : Except OMSError (Option ℚ × Option ℚ × Option ℚ))
    | _, _, _ => .error .malformedReply) = .ok (some x, some y, some z)
  rw [hx, hy, hz]

/-- C4: `read_current_position` returns an all-absent triple on any
`Error`-status reply; on an `Ok`-status reply whose payload is exactly three
whitespace-separated fields `X<f> Y<f> Z<f>` it returns the three parsed
values; on an `Ok`-status reply of any other shape it fails with
`MalformedReply`. -/
theorem C4_read_current_position_shape :
    (∀ p, read_current_position (.error, p) = .ok (none, none, none)) ∧
    (∀ a b c x y z, parsePyFloat a = some x → parsePyFloat b = some y →
      parsePyFloat c = some z →
      read_current_position
        (.ok, ⟨('X' :: a) ++ ' ' :: (('Y' :: b) ++ ' ' :: ('Z' :: c))⟩) =
        .ok (some x, some y, some z)) ∧
    (∀ p, positionShape p = false →
      read_current_position (.ok, p) = .error .malformedReply) ∧
    read_current_position (.ok, "X10.5 Y20.3 Z15.8") =
      .ok (some (mkRat 21 2), some (mkRat 203 10), some (mkRat 79 5)) ∧
    read_current_position (.ok, "invalid format") = .error .malformedReply := by
  refine ⟨fun p => rfl, fun a b c x y z hx hy hz => read_position_fields a b c x y z hx hy hz,
    ?_, ?_, rfl⟩
  · intro p h
    rw [read_current_position]
    show (match wordsOf p with
      | ['X' :: a, 'Y' :: b, 'Z' :: c] =>
        match parsePyFloat a, parsePyFloat b, parsePyFloat c with
        | some x, some y, some z =>
          (.ok (some x, some y, some z) : Except OMSError (Option ℚ × Option ℚ × Option ℚ))
        | _, _, _ => .error .malformedReply
      | _ => .error .malformedReply) = .error .malformedReply
    split
    · rename_i a b c heq
      split
      · rename_i x y z hx hy hz
        exfalso
        have hps : positionShape p = true := by
          rw [positionShape, heq]
          show ((parsePyFloat a).isSome && (parsePyFloat b).isSome &&
            (parsePyFloat c).isSome) = true
          rw [hx, hy, hz]
          rfl
        rw [h] at hps
        exact absurd hps (by simp)
      · rfl
    · rfl
  · have h1 : parsePyFloat "10.5".data = some (mkRat 21 2) := by
      have : parsePyFloat "10.5".data = some ((10 : ℚ) + mkRat 5 10) := rfl
      rw [this, show ((10 : ℚ) + mkRat 5 10) = mkRat 21 2 by
        rw [Rat.mkRat_eq_div, Rat.mkRat_eq_div]; norm_num]
    have h2 : parsePyFloat "20.3".data = some (mkRat 203 10) := by
      have : parsePyFloat "20.3".data = some ((20 : ℚ) + mkRat 3 10) := rfl
      rw [this, show ((20 : ℚ) + mkRat 3 10) = mkRat 203 10 by
        rw [Rat.mkRat_eq_div, Rat.mkRat_eq_div]; norm_num]
    have h3 : parsePyFloat "15.8".data = some (mkRat 79 5) := by
      have : parsePyFloat "15.8".data = some ((15 : ℚ) + mkRat 8 10) := rfl
      rw [this, show ((15 : ℚ) + mkRat 8 10) = mkRat 79 5 by
        rw [Rat.mkRat_eq_div, Rat.mkRat_eq_div]; norm_num]
    have hpay : ("X10.5 Y20.3 Z15.8" : String) =
        ⟨('X' :: "10.5".data) ++ ' ' :: (('Y' :: "20.3".data) ++ ' ' :: ('Z' :: "15.8".data))⟩ :=
      rfl
    rw [hpay]
    exact read_position_fields "10.5".data "20.3".data "15.8".data _ _ _ h1 h2 h3

/-- Witness for C4: integer-valued fields `X4 Y5 Z6` for the positive shape
and the tested malformed payload for the negative one. -/
theorem C4_read_current_position_shape_witness :
    (parsePyFloat "4".data = some 4 ∧ parsePyFloat "5".data = some 5 ∧
      parsePyFloat "6".data = some 6 ∧ positionShape "invalid format" = false) ∧
    read_current_position
      (.ok, ⟨('X' :: "4".data) ++ ' ' :: (('Y' :: "5".data) ++ ' ' :: ('Z' :: "6".data))⟩) =
      .ok (some 4, some 5, some 6) ∧
    read_current_position (.ok, "invalid format") = .error .malformedReply :=
  ⟨⟨rfl, rfl, rfl, rfl⟩,
    C4_read_current_position_shape.2.1 "4".data "5".data "6".data 4 5 6 rfl rfl rfl,
    C4_read_current_position_shape.2.2.1 "invalid format" rfl⟩

/-- C7: table parsing splits the payload into newline-delimited lines and each
line on commas; a line with any unparseable field is skipped entirely, while a
line whose fields all parse contributes its value at position `j` to column
`j` for every `j < n` it covers (excess fields beyond `n` ignored); the result
always has exactly `n` columns; parsing
`"1.0,2.0,3.0\ninvalid\n4.0,5.0,6.0"` with 3 columns yields
`[1,4], [2,5], [3,6]`. -/
theorem C7_parse_table_data_lines :
    (∀ bad rest n, (∀ ch ∈ bad, ch ≠ '\n') → parseLine bad = none →
      parse_table_data ⟨bad ++ '\n' :: rest⟩ n = parse_table_data ⟨rest⟩ n) ∧
    (∀ good rest vs n, (∀ ch ∈ good, ch ≠ '\n') → parseLine good = some vs →
      parse_table_data ⟨good ++ '\n' :: rest⟩ n =
        (List.range n).map (fun j =>
          (vs.get? j).toList ++ (parse_table_data ⟨rest⟩ n).getD j [])) ∧
    (∀ s n, (parse_table_data s n).length = n) ∧
    parse_table_data "1.0,2.0,3.0\ninvalid\n4.0,5.0,6.0" 3 =
      [[1, 4], [2, 5], [3, 6]] := by
  have hmk : ∀ (l : List Char) (n : Nat), parse_table_data ⟨l⟩ n =
      (List.range n).map (fun j =>
        ((splitP (fun c => c = '\n') l).filterMap parseLine).filterMap
          (fun r => r.get? j)) := fun l n => rfl
  have hcol : ∀ (l : List Char) (n j : Nat), j < n →
      (parse_table_data ⟨l⟩ n).getD j [] =
        ((splitP (fun c => c = '\n') l).filterMap parseLine).filterMap
          (fun r => r.get? j) := by
    intro l n j hj
    rw [hmk]
    rw [List.getD_eq_getElem _ [] (by simpa using hj)]
    rw [List.getElem_map, List.getElem_range]
  refine ⟨?_, ?_, ?_, ?_⟩
  · intro bad rest n hnl hbad
    rw [hmk, hmk,
      splitP_append_sep (fun c => c = '\n') bad (fun x hx => by simp [hnl x hx]) '\n'
        (by decide) rest,
      List.filterMap_cons_none hbad]
  · intro good rest vs n hnl hgood
    rw [hmk,
      splitP_append_sep (fun c => c = '\n') good (fun x hx => by simp [hnl x hx]) '\n'
        (by decide) rest,
      List.filterMap_cons_some hgood]
    apply List.map_congr_left
    intro j hj
    simp only [List.mem_range] at hj
    rw [hcol rest n j hj]
    cases hv : vs.get? j <;> rw [List.get?_eq_getElem?] at hv <;>
      simp [List.filterMap_cons, hv]
  · intro s n
    simp [parse_table_data]
  · have hs : splitP (fun c => c = '\n') ("1.0,2.0,3.0\ninvalid\n4.0,5.0,6.0").data =
        ["1.0,2.0,3.0".data, "invalid".data, "4.0,5.0,6.0".data] := rfl
    have hl1 : parseLine "1.0,2.0,3.0".data = some [1, 2, 3] := by
      have e : parseLine "1.0,2.0,3.0".data =
          some [(1 : ℚ) + mkRat 0 10, (2 : ℚ) + mkRat 0 10, (3 : ℚ) + mkRat 0 10] := rfl
      rw [e, show ((1 : ℚ) + mkRat 0 10) = 1 by rw [Rat.mkRat_eq_div]; norm_num,
        show ((2 : ℚ) + mkRat 0 10) = 2 by rw [Rat.mkRat_eq_div]; norm_num,
        show ((3 : ℚ) + mkRat 0 10) = 3 by rw [Rat.mkRat_eq_div]; norm_num]
    have hl2 : parseLine "invalid".data = none := rfl
    have hl3 : parseLine "4.0,5.0,6.0".data = some [4, 5, 6] := by
      have e : parseLine "4.0,5.0,6.0".data =
          some [(4 : ℚ) + mkRat 0 10, (5 : ℚ) + mkRat 0 10, (6 : ℚ) + mkRat 0 10] := rfl
      rw [e, show ((4 : ℚ) + mkRat 0 10) = 4 by rw [Rat.mkRat_eq_div]; norm_num,
        show ((5 : ℚ) + mkRat 0 10) = 5 by rw [Rat.mkRat_eq_div]; norm_num,
        show ((6 : ℚ) + mkRat 0 10) = 6 by rw [Rat.mkRat_eq_div]; norm_num]
    have hrows : (splitP (fun c => c = '\n')
        ("1.0,2.0,3.0\ninvalid\n4.0,5.0,6.0").data).filterMap parseLine =
        [[1, 2, 3], [4, 5, 6]] := by
      rw [hs, List.filterMap_cons_some hl1, List.filterMap_cons_none hl2,
        List.filterMap_cons_some hl3]
      rfl
    show (List.range 3).map (fun j =>
      ((splitP (fun c => c = '\n')
        ("1.0,2.0,3.0\ninvalid\n4.0,5.0,6.0").data).filterMap parseLine).filterMap
          (fun r => r.get? j)) = _
    rw [hrows]
    rfl

/-- Witness for C7: the tested malformed line `"invalid"` is skipped, and a
short well-formed line `"4,5"` contributes to the columns it covers. -/
theorem C7_parse_table_data_lines_witness :
    ((∀ ch ∈ "invalid".data, ch ≠ '\n') ∧ parseLine "invalid".data = none ∧
      (∀ ch ∈ "4,5".data, ch ≠ '\n') ∧ parseLine "4,5".data = some [4, 5]) ∧
    parse_table_data ⟨"invalid".data ++ '\n' :: "7".data⟩ 1 =
      parse_table_data ⟨"7".data⟩ 1 ∧
    parse_table_data ⟨"4,5".data ++ '\n' :: "7".data⟩ 3 =
      (List.range 3).map (fun j =>
        (([4, 5] : List ℚ).get? j).toList ++ (parse_table_data ⟨"7".data⟩ 3).getD j []) :=
  ⟨⟨by decide, rfl, by decide, rfl⟩,
    C7_parse_table_data_lines.1 "invalid".data "7".data 1 (by decide) rfl,
    C7_parse_table_data_lines.2.1 "4,5".data "7".data [4, 5] 3 (by decide) rfl⟩
